/-
Verification of the singularis sentence-labeling decision engine.

Shallow embedding of:
  * src/singularis/label_with_spacy.py  (scoring, flags, boosts, resolution,
    suppression filters)
  * src/singularis/imrad_grobid_pipeline.py : merge_adjacent

External collaborators (the spaCy NLP engine and the rule-pattern matchers)
are modelled at their interface: a sentence unit carries the list of surface
rule identifiers and relational (dependency) rule identifiers that fired,
the per-token lemma stream, and the value of the bibliographic-reference
regex heuristic, exactly the information the Python code extracts from them.
-/
import Mathlib

set_option maxHeartbeats 1000000

/-- The eight rhetorical role labels plus the fallback OTHER.
Mirrors LABELS = ["Input Fact","Hypothesis","Experiment","Technique",
"Result","Dataset","Analysis","Conclusion"] plus the string "OTHER". -/
inductive Label where
  | inputFact
  | hypothesis
  | experiment
  | technique
  | result
  | dataset
  | analysis
  | conclusion
  | OTHER
deriving DecidableEq, Repr

/-- The LABELS list, in the Python insertion order (the fallback OTHER is
not a member: the score dict never has an OTHER key). -/
def LABELS : List Label :=
  [Label.inputFact, Label.hypothesis, Label.experiment, Label.technique,
   Label.result, Label.dataset, Label.analysis, Label.conclusion]

/-- Score vector: the dict `scores` with exactly the eight role-label keys. -/
structure Scores where
  inputFact : Int
  hypothesis : Int
  experiment : Int
  technique : Int
  result : Int
  dataset : Int
  analysis : Int
  conclusion : Int
deriving DecidableEq, Repr

/-- The all-zero vector `{lab: 0 for lab in LABELS}`. -/
def zeroScores : Scores := ⟨0, 0, 0, 0, 0, 0, 0, 0⟩

/-- Dictionary lookup on the score dict: the eight role labels are present,
OTHER is not (Python `scores[lab]` / `lab in scores`). -/
def Scores.get? (s : Scores) : Label → Option Int
  | Label.inputFact => some s.inputFact
  | Label.hypothesis => some s.hypothesis
  | Label.experiment => some s.experiment
  | Label.technique => some s.technique
  | Label.result => some s.result
  | Label.dataset => some s.dataset
  | Label.analysis => some s.analysis
  | Label.conclusion => some s.conclusion
  | Label.OTHER => none

/-- Python `scores.get(lab, d)`. -/
def Scores.getD (s : Scores) (l : Label) (d : Int) : Int := (s.get? l).getD d

/-- Python `scores[lab] += v` (no-op on the absent OTHER key; the source
never adds to OTHER). -/
def Scores.add (s : Scores) (l : Label) (v : Int) : Scores :=
  match l with
  | Label.inputFact => { s with inputFact := s.inputFact + v }
  | Label.hypothesis => { s with hypothesis := s.hypothesis + v }
  | Label.experiment => { s with experiment := s.experiment + v }
  | Label.technique => { s with technique := s.technique + v }
  | Label.result => { s with result := s.result + v }
  | Label.dataset => { s with dataset := s.dataset + v }
  | Label.analysis => { s with analysis := s.analysis + v }
  | Label.conclusion => { s with conclusion := s.conclusion + v }
  | Label.OTHER => s

/-- Python `max(scores.values())`. -/
def max_score (s : Scores) : Int :=
  max s.inputFact (max s.hypothesis (max s.experiment (max s.technique
    (max s.result (max s.dataset (max s.analysis s.conclusion))))))

/-- Every entry of the score vector is nonnegative. -/
def Scores.nonneg (s : Scores) : Prop :=
  0 ≤ s.inputFact ∧ 0 ≤ s.hypothesis ∧ 0 ≤ s.experiment ∧ 0 ≤ s.technique ∧
  0 ≤ s.result ∧ 0 ≤ s.dataset ∧ 0 ≤ s.analysis ∧ 0 ≤ s.conclusion

instance (s : Scores) : Decidable s.nonneg := by
  unfold Scores.nonneg; infer_instance

/- ===================== Hit map (defaultdict(int)) ===================== -/

/-- The per-unit hit map: rule identifier → occurrence count, in insertion
order, each key at most once (a Python dict). -/
abbrev HitMap : Type := List (String × Nat)

/-- Python `hits[name] += 1` on a defaultdict(int): increment an existing
key in place, otherwise append the key with count 1. -/
def bump : HitMap → String → HitMap
  | [], name => [(name, 1)]
  | (k, v) :: rest, name =>
      if k = name then (k, v + 1) :: rest else (k, v) :: bump rest name

/-- Build the hit map by bumping each fired rule identifier in order. -/
def build_hits (names : List String) : HitMap := names.foldl bump []

/-- Python `hits[k]` with defaultdict semantics (`hits.get(k, 0)`). -/
def hits_count : HitMap → String → Nat
  | [], _ => 0
  | (k, v) :: rest, name => if k = name then v else hits_count rest name

/-- Python `_any_hit(hits, keys)`: any key present with positive count. -/
def any_hit (h : HitMap) (keys : List String) : Bool :=
  keys.any (fun k => 0 < hits_count h k)

/- ===================== String helpers ===================== -/

/-- `cs` starts with the character sequence `ps`. -/
def chars_start : List Char → List Char → Bool
  | _, [] => true
  | [], _ :: _ => false
  | c :: cs, p :: ps => c = p && chars_start cs ps

/-- Python `name.startswith(pre)`, computed on the character sequences. -/
def starts_with (s pre : String) : Bool := chars_start s.data pre.data

/-- Python `s.upper()` (ASCII case mapping, as used on section names). -/
def upper_str (s : String) : String := String.mk (s.data.map Char.toUpper)

/-- Python `s.lower()` (ASCII case mapping, as used on token lemmas). -/
def lower_str (s : String) : String := String.mk (s.data.map Char.toLower)

/- ===================== Fixed tables ===================== -/

/-- PREFIX2LABEL: the identifier-prefix → label convention, in the Python
dict's insertion order. -/
def PREFIX2LABEL : List (String × Label) :=
  [("INF_", Label.inputFact), ("HYP_", Label.hypothesis),
   ("EXP_", Label.experiment), ("TEC_", Label.technique),
   ("RES_", Label.result), ("DATA_", Label.dataset),
   ("ANA_", Label.analysis), ("CONC_", Label.conclusion)]

/-- CIT_STRUCT_BONUS = 4. -/
def CIT_STRUCT_BONUS : Int := 4
/-- CIT_RULE_BONUS = 3. -/
def CIT_RULE_BONUS : Int := 3

/-- SECTION_PRIORS.get(section, {}) as an association list per section. -/
def section_priors (sec : String) : List (Label × Int) :=
  if sec = "ABSTRACT" then [(Label.hypothesis, 1)]
  else if sec = "INTRO" then [(Label.inputFact, 1), (Label.hypothesis, 2)]
  else if sec = "METHODS" then
    [(Label.experiment, 2), (Label.technique, 2), (Label.dataset, 1),
     (Label.analysis, 1)]
  else if sec = "RESULTS" then [(Label.result, 2), (Label.analysis, 1)]
  else if sec = "DISCUSSION" then
    [(Label.conclusion, 2), (Label.result, 1), (Label.hypothesis, 1)]
  else if sec = "CONCLUSION" then [(Label.conclusion, 2)]
  else []

/-- WEIGHTS["tie_order"]: universal tie order (note: it has an OTHER entry
but no Hypothesis entry). -/
def universal_tie_order : List Label :=
  [Label.conclusion, Label.result, Label.analysis, Label.technique,
   Label.experiment, Label.dataset, Label.inputFact, Label.OTHER]

/-- SECTION_TIE_ORDER.get(section, WEIGHTS["tie_order"]). -/
def tie_order_for (sec : String) : List Label :=
  if sec = "ABSTRACT" then
    [Label.conclusion, Label.result, Label.hypothesis, Label.dataset,
     Label.technique, Label.analysis, Label.experiment, Label.inputFact]
  else if sec = "INTRO" then
    [Label.hypothesis, Label.inputFact, Label.conclusion, Label.result,
     Label.analysis, Label.technique, Label.experiment, Label.dataset]
  else if sec = "METHODS" then
    [Label.technique, Label.experiment, Label.dataset, Label.analysis,
     Label.result, Label.inputFact, Label.hypothesis, Label.conclusion]
  else if sec = "RESULTS" then
    [Label.result, Label.analysis, Label.dataset, Label.technique,
     Label.experiment, Label.conclusion, Label.inputFact, Label.hypothesis]
  else if sec = "DISCUSSION" then
    [Label.conclusion, Label.result, Label.analysis, Label.technique,
     Label.experiment, Label.dataset, Label.inputFact, Label.hypothesis]
  else if sec = "CONCLUSION" then
    [Label.conclusion, Label.result, Label.analysis, Label.technique,
     Label.experiment, Label.dataset, Label.inputFact, Label.hypothesis]
  else universal_tie_order

/-- SIG_WORDS. -/
def SIG_WORDS : List String := ["significant", "significantly", "significance"]

/- ===================== _score_sentence ===================== -/

/-- One iteration of the surface-hit loop body acting on the score vector:
+1 to the label of each matching known role prefix, then CIT_RULE_BONUS (+3)
to Input Fact when the name carries the citation-rule prefix INF_CIT_. -/
def surf_step (s : Scores) (name : String) : Scores :=
  let s := PREFIX2LABEL.foldl
    (fun acc pl => if starts_with name pl.1 then acc.add pl.2 1 else acc) s
  if starts_with name "INF_CIT_" then s.add Label.inputFact CIT_RULE_BONUS else s

/-- One iteration of the dependency-hit loop body: +2 per matching prefix. -/
def dep_step (s : Scores) (name : String) : Scores :=
  PREFIX2LABEL.foldl
    (fun acc pl => if starts_with name pl.1 then acc.add pl.2 2 else acc) s

/-- The section-prior loop: `for lab, w in SECTION_PRIORS.get(section, {})`. -/
def apply_priors (s : Scores) (sec : String) : Scores :=
  (section_priors sec).foldl (fun acc lw => acc.add lw.1 lw.2) s

/-- _score_sentence: the surface loop, the dependency loop, the prior loop,
and the hit map recording every fired identifier (surface hits are recorded
before dependency hits, as in the source's loop order). -/
def score_sentence (surfaceHits depHits : List String) (sec : String) :
    Scores × HitMap :=
  let s := surfaceHits.foldl surf_step zeroScores
  let s := depHits.foldl dep_step s
  let s := apply_priors s sec
  (s, build_hits (surfaceHits ++ depHits))

/- ===================== _compute_flags ===================== -/

/-- The fixed-shape flag record computed once per unit. -/
structure Flags where
  sec : String
  has_res_summary : Bool
  has_res_verb_cues : Bool
  has_res_stats : Bool
  has_analysis_test : Bool
  has_hyp_intro : Bool
  has_experiment_ops : Bool
  has_tech_using : Bool
  has_scale_classification : Bool
  has_dataset_cues : Bool
  has_citation_rule : Bool
  has_significance : Bool
  has_abs_head_results : Bool
  has_abs_head_conc : Bool
  has_pct_list : Bool
  has_hyp_surface_any : Bool
deriving DecidableEq, Repr

/-- _compute_flags.  The per-token lemma stream of the spaCy doc is passed
in as `lemmas`; `text` is the unit's raw text (used for the percent count). -/
def compute_flags (text : String) (lemmas : List String) (h : HitMap)
    (section_hint : String) (has_citation_field : Bool) : Flags :=
  let sec := upper_str section_hint
  let has_res_stats := any_hit h ["RES_STATS"]
  let is_intro_like := sec = "INTRO" ∨ sec = "ABSTRACT"
  let has_tech_using := any_hit h ["TEC_USING", "TEC_SURFACE"]
  let has_significance_word :=
    lemmas.any (fun t => SIG_WORDS.contains (lower_str t))
  { sec := sec
    has_res_summary := any_hit h ["RES_SUMMARY"]
    has_res_verb_cues := any_hit h ["RES_VERB_CUES", "RES_WE_VERB"]
    has_res_stats := has_res_stats
    has_analysis_test := any_hit h ["ANA_SURFACE", "ANA_DEP", "ANA_USING"]
    has_hyp_intro := any_hit h ["HYP_SURFACE"] && is_intro_like
    has_experiment_ops := any_hit h ["EXP_SURFACE", "EXP_DOBJ"]
    has_tech_using := has_tech_using
    has_scale_classification := has_tech_using
    has_dataset_cues := any_hit h ["DATA_SURFACE"]
    has_citation_rule :=
      any_hit h ["INF_CIT_BRACK_NUM", "INF_CIT_PAREN_AUTHOR_YEAR",
        "INF_CIT_PAREN_YEAR_ONLY", "INF_CIT_ETAL_YEAR", "INF_CIT_DOI"]
        || has_citation_field
    has_significance := has_res_stats || has_significance_word
    has_abs_head_results := any_hit h ["RES_ABS_HEAD_RESULTS"]
    has_abs_head_conc := any_hit h ["CONC_ABS_HEAD"]
    has_pct_list := 2 ≤ (text.toList.filter (· = '%')).length
    has_hyp_surface_any := any_hit h ["HYP_SURFACE"] }

/- ===================== _apply_boosts ===================== -/

/-- Boost: has_analysis_test → Analysis += WEIGHTS["boosts"]["ANA"] (3). -/
def boost_ana (s : Scores) (f : Flags) : Scores :=
  if f.has_analysis_test then { s with analysis := s.analysis + 3 } else s

/-- Boost: result summary / verb cues / stats → Result += 3. -/
def boost_res (s : Scores) (f : Flags) : Scores :=
  if f.has_res_summary || f.has_res_verb_cues || f.has_res_stats then
    { s with result := s.result + 3 }
  else s

/-- Boost: has_hyp_intro → Hypothesis += 2. -/
def boost_hyp_intro (s : Scores) (f : Flags) : Scores :=
  if f.has_hyp_intro then { s with hypothesis := s.hypothesis + 2 } else s

/-- Boost: has_experiment_ops → Experiment += 2. -/
def boost_exp (s : Scores) (f : Flags) : Scores :=
  if f.has_experiment_ops then { s with experiment := s.experiment + 2 } else s

/-- Boost: tech_using or scale_classification → Technique += 2. -/
def boost_tec (s : Scores) (f : Flags) : Scores :=
  if f.has_tech_using || f.has_scale_classification then
    { s with technique := s.technique + 2 }
  else s

/-- Boost: dataset cues without significance → Dataset += 2. -/
def boost_data (s : Scores) (f : Flags) : Scores :=
  if f.has_dataset_cues && !f.has_significance then
    { s with dataset := s.dataset + 2 }
  else s

/-- Boost: citation rule in INTRO/ABSTRACT → Input Fact += 1. -/
def boost_inf_cit (s : Scores) (f : Flags) : Scores :=
  if (f.sec = "INTRO" ∨ f.sec = "ABSTRACT") && f.has_citation_rule then
    { s with inputFact := s.inputFact + 1 }
  else s

/-- ABSTRACT block: header markers and percent lists → Result/Conclusion. -/
def boost_abstract (s : Scores) (f : Flags) : Scores :=
  if f.sec = "ABSTRACT" then
    let s := if f.has_abs_head_results then
      { s with result := s.result + 2 } else s
    let s := if f.has_abs_head_conc then
      { s with conclusion := s.conclusion + 2 } else s
    if f.has_pct_list then { s with result := s.result + 1 } else s
  else s

/-- ABSTRACT/METHODS dataset help: dataset cues and no significance or
analysis test → Dataset += 1. -/
def boost_data_sec (s : Scores) (f : Flags) : Scores :=
  if (f.sec = "ABSTRACT" ∨ f.sec = "METHODS") && f.has_dataset_cues
      && !(f.has_significance || f.has_analysis_test) then
    { s with dataset := s.dataset + 1 }
  else s

/-- INTRO/ABSTRACT hypothesis-surface adjustment: Hypothesis += 2 and
Technique -= 1, guarded by a strictly positive Technique score. -/
def boost_hyp_over_tec (s : Scores) (f : Flags) : Scores :=
  if (f.sec = "INTRO" ∨ f.sec = "ABSTRACT") && f.has_hyp_surface_any
      && decide (0 < s.technique) then
    { s with hypothesis := s.hypothesis + 2, technique := s.technique - 1 }
  else s

/-- _apply_boosts: the sequential conditional additions, in source order. -/
def apply_boosts (s : Scores) (f : Flags) : Scores :=
  boost_hyp_over_tec
    (boost_data_sec
      (boost_abstract
        (boost_inf_cit
          (boost_data
            (boost_tec
              (boost_exp
                (boost_hyp_intro
                  (boost_res (boost_ana s f) f) f) f) f) f) f) f) f) f

/- ===================== _resolve_label ===================== -/

/-- Python `section_order.index(x) if x in section_order else
len(section_order)`. -/
def order_index : List Label → Label → Nat
  | [], _ => 0
  | o :: rest, l => if l = o then 0 else 1 + order_index rest l

/-- `cands.sort(key=...)` (a stable sort) followed by `cands[0]`: the first
list element achieving the minimal key.  Empty input (unreachable in the
program: the maximum is always attained) falls back to OTHER. -/
def first_min_by (key : Label → Nat) : List Label → Label
  | [] => Label.OTHER
  | x :: rest =>
      rest.foldl (fun best y => if key y < key best then y else best) x

/-- `[lab for lab, v in scores.items() if v == max_score]`, in the score
dict's (= LABELS) insertion order. -/
def candidates (s : Scores) : List Label :=
  LABELS.filter (fun l => decide (s.getD l 0 = max_score s))

/-- The near-tie loop: walk the section order; stop (keeping `chosen`) on
reaching `chosen`; otherwise promote the first label whose
`scores.get(pref, -999)` is ≥ max_score - 1. -/
def near_tie_loop : List Label → Scores → Int → Label → Label
  | [], _, _, chosen => chosen
  | p :: rest, s, m, chosen =>
      if p = chosen then chosen
      else if m - 1 ≤ s.getD p (-999) then p
      else near_tie_loop rest s m chosen

/-- The four hard corrections applied sequentially after tie-break. -/
def post_corrections (chosen : Label) (f : Flags) : Label :=
  let c := if chosen = Label.technique ∧ f.has_analysis_test then
    Label.analysis else chosen
  let c := if c = Label.technique ∧
      (f.has_res_summary || f.has_res_verb_cues || f.has_res_stats) then
    (if ¬(f.sec = "DISCUSSION" ∨ f.sec = "INTRO" ∨ f.sec = "ABSTRACT") then
      Label.result else Label.conclusion)
    else c
  let c := if c = Label.OTHER ∧ f.has_experiment_ops then Label.experiment
    else c
  if c = Label.dataset ∧ f.has_significance then Label.result else c

/-- The max/candidates/tie-break/near-tie part of _resolve_label. -/
def resolve_choice (s : Scores) (sec : String) : Label :=
  let m := max_score s
  let cands := candidates s
  let order := tie_order_for sec
  near_tie_loop order s m (first_min_by (order_index order) cands)

/-- _resolve_label.  The Python `if not scores: return "OTHER"` branch is
dead in the program: the score dict built by _score_sentence always carries
all eight keys, which the Scores structure encodes. -/
def resolve_label (s : Scores) (f : Flags) (had_matches : Bool) : Label :=
  if f.sec = "REFERENCES" ∨ had_matches = false then
    (if f.sec ≠ "RESULTS" then Label.OTHER else Label.result)
  else
    post_corrections (resolve_choice s f.sec) f

/- ===================== label_items (per unit) ===================== -/

/-- A bounding rectangle [x0, y0, x1, y1]; the PDF float coordinates are
modelled as rationals (the merge logic uses only order and min/max). -/
structure Rect where
  x0 : ℚ
  y0 : ℚ
  x1 : ℚ
  y1 : ℚ
deriving DecidableEq, Repr

/-- A sentence unit as the labeling step consumes it.  The external spaCy
engine and the externally-configured matchers are represented at their
interface: `surfaceHits`/`depHits` are the rule identifiers they fire (with
multiplicity, in match order), `lemmas` the per-token lemma stream, and
`looks_reference` the value of the pure text predicate
`looks_like_reference(text)` (a regex heuristic over the raw text). -/
structure SentenceUnit where
  text : String
  lemmas : List String
  surfaceHits : List String
  depHits : List String
  section_hint : String
  has_citation : Bool
  looks_reference : Bool
  page : Int
  bbox : Rect
deriving DecidableEq, Repr

/-- Raw scoring plus the structural-citation bonus: _score_sentence followed
by `scores["Input Fact"] += CIT_STRUCT_BONUS` and the synthetic
INF_CIT_STRUCT hit when the unit carries the structural citation field. -/
def raw_scores_hits (u : SentenceUnit) : Scores × HitMap :=
  let sec := upper_str u.section_hint
  let sh := score_sentence u.surfaceHits u.depHits sec
  if u.has_citation then
    (sh.1.add Label.inputFact CIT_STRUCT_BONUS, bump sh.2 "INF_CIT_STRUCT")
  else sh

/-- The flags computed for a unit (on the hit map that already includes the
synthetic structural-citation hit, as in the source). -/
def unit_flags (u : SentenceUnit) : Flags :=
  compute_flags u.text u.lemmas (raw_scores_hits u).2 (upper_str u.section_hint)
    u.has_citation

/-- The unit's score vector after _apply_boosts. -/
def unit_scores (u : SentenceUnit) : Scores :=
  apply_boosts (raw_scores_hits u).1 (unit_flags u)

/-- The label resolved before the safeguards. -/
def resolved_label (u : SentenceUnit) : Label :=
  resolve_label (unit_scores u) (unit_flags u)
    (!(raw_scores_hits u).2.isEmpty)

/-- Keys the citation-soft filter treats as citation evidence. -/
def is_cit_key (k : String) : Bool :=
  starts_with k "INF_CIT_" || k = "INF_CITATION" || k = "INF_CIT_STRUCT"

/-- `sum(v for k, v in hits.items() if <k is citation evidence>)`. -/
def cit_hits_sum (h : HitMap) : Nat :=
  ((h.filter (fun kv => is_cit_key kv.1)).map (fun kv => kv.2)).sum

/-- `sum(v for k, v in hits.items() if not <k is citation evidence>)`. -/
def non_cit_hits_sum (h : HitMap) : Nat :=
  ((h.filter (fun kv => !is_cit_key kv.1)).map (fun kv => kv.2)).sum

/-- The citation-soft safeguard: without a structural citation, with the
mode enabled and an "Input Fact" resolution, downgrade to OTHER when all
hit-map mass is citation evidence. -/
def cit_soft_filter (has_citation citation_soft : Bool) (h : HitMap)
    (label : Label) : Label :=
  if !has_citation && citation_soft && decide (label = Label.inputFact) then
    (if 0 < cit_hits_sum h ∧ non_cit_hits_sum h = 0 then Label.OTHER
     else label)
  else label

/-- The reference-looks safeguard: `if looks_like_reference(text):
label = "OTHER"`. -/
def ref_force (looksRef : Bool) (label : Label) : Label :=
  if looksRef then Label.OTHER else label

/-- Both safeguards in the source's textual order: the reference-looks
forcing first, then the citation-soft filter. -/
def safeguards (looksRef has_citation citation_soft : Bool) (h : HitMap)
    (label : Label) : Label :=
  cit_soft_filter has_citation citation_soft h (ref_force looksRef label)

/-- The full per-unit decision of label_items. -/
def label_item (u : SentenceUnit) (citation_soft : Bool) : Label :=
  safeguards u.looks_reference u.has_citation citation_soft
    (raw_scores_hits u).2 (resolved_label u)

/-- label_items over a stream of units. -/
def label_items (items : List SentenceUnit) (citation_soft : Bool) :
    List Label :=
  items.map (fun u => label_item u citation_soft)

/- ===================== merge_adjacent ===================== -/

/-- A decision record as merge_adjacent consumes and produces it. -/
structure SpanRec where
  label : Label
  page : Int
  text : String
  bbox : Rect
deriving DecidableEq, Repr

/-- The bounding-rectangle union computed in the merge loop: componentwise
min on (x0, y0) and max on (x1, y1). -/
def rect_union (a b : Rect) : Rect :=
  ⟨min a.x0 b.x0, min a.y0 b.y0, max a.x1 b.x1, max a.y1 b.y1⟩

/-- Absorb record `r` into the open span `cur`: concatenate the text with a
separating space and union the rectangles. -/
def merge_one (cur r : SpanRec) : SpanRec :=
  { cur with text := cur.text ++ " " ++ r.text,
             bbox := rect_union cur.bbox r.bbox }

/-- The merge loop with `cur` the open span (`merged[-1]`). -/
def merge_go (cur : SpanRec) : List SpanRec → List SpanRec
  | [] => [cur]
  | r :: rs =>
      if r.label = cur.label ∧ r.page = cur.page then
        merge_go (merge_one cur r) rs
      else cur :: merge_go r rs

/-- merge_adjacent. -/
def merge_adjacent : List SpanRec → List SpanRec
  | [] => []
  | r :: rs => merge_go r rs

/-- Collapse a whole group (head plus absorbed tail) into one span. -/
def collapse (a : SpanRec) (as_ : List SpanRec) : SpanRec :=
  as_.foldl merge_one a

/-- Rectangle containment: `u` contains `r`. -/
def rect_contains (u r : Rect) : Prop :=
  u.x0 ≤ r.x0 ∧ u.y0 ≤ r.y0 ∧ r.x1 ≤ u.x1 ∧ r.y1 ≤ u.y1

/- ===================== Shared helper lemmas ===================== -/

lemma cit_soft_filter_of_ne (hc cs : Bool) (h : HitMap) (label : Label)
    (hne : label ≠ Label.inputFact) :
    cit_soft_filter hc cs h label = label := by
  unfold cit_soft_filter
  simp [hne]

lemma ref_force_other (lr : Bool) :
    ref_force lr Label.OTHER = Label.OTHER := by
  unfold ref_force; cases lr <;> rfl

lemma unit_flags_sec (u : SentenceUnit) :
    (unit_flags u).sec = upper_str (upper_str u.section_hint) := by
  simp [unit_flags, compute_flags]

/- ===================== Claim C1 ===================== -/

/-- Claim C1: if the section is REFERENCES, or no rule fired at all, the
resolver returns OTHER, except that section RESULTS with no matches returns
Result; consequently a unit whose (normalized) section is REFERENCES gets
the final label OTHER regardless of its score vector. -/
theorem claim_C1 :
    (∀ (s : Scores) (f : Flags) (had : Bool),
        f.sec = "REFERENCES" ∨ had = false →
        resolve_label s f had =
          (if f.sec = "RESULTS" then Label.result else Label.OTHER)) ∧
    (∀ (u : SentenceUnit) (cs : Bool),
        upper_str u.section_hint = "REFERENCES" →
        label_item u cs = Label.OTHER) := by
  constructor
  · intro s f had hcond
    unfold resolve_label
    rw [if_pos hcond]
    by_cases hr : f.sec = "RESULTS" <;> simp [hr]
  · intro u cs h
    have hsec : (unit_flags u).sec = "REFERENCES" := by
      rw [unit_flags_sec, h]; decide
    have hres : resolved_label u = Label.OTHER := by
      unfold resolved_label resolve_label
      rw [hsec]
      rw [if_pos (Or.inl rfl)]
      rw [if_pos (by decide)]
    unfold label_item safeguards
    rw [hres, ref_force_other]
    exact cit_soft_filter_of_ne _ _ _ _ (by decide)

/-- Witness for C1 at a concrete unit in section REFERENCES with a fired
rule and a nonzero score vector. -/
theorem claim_C1_witness :
    label_item
      { text := "x", lemmas := [], surfaceHits := ["RES_SUMMARY"],
        depHits := [], section_hint := "References", has_citation := false,
        looks_reference := false, page := 1, bbox := ⟨0, 0, 1, 1⟩ }
      true = Label.OTHER :=
  claim_C1.2 _ true (by decide)

/- ===================== Merge lemmas ===================== -/

lemma merge_one_label (cur r : SpanRec) :
    (merge_one cur r).label = cur.label := rfl

lemma merge_one_page (cur r : SpanRec) :
    (merge_one cur r).page = cur.page := rfl

/-- The merge loop's output is nonempty and its head keeps the open span's
label and page. -/
lemma merge_go_head : ∀ (rs : List SpanRec) (cur : SpanRec),
    ∃ h t, merge_go cur rs = h :: t ∧ h.label = cur.label ∧
      h.page = cur.page := by
  intro rs
  induction rs with
  | nil => exact fun cur => ⟨cur, [], rfl, rfl, rfl⟩
  | cons r rs ih =>
    intro cur
    by_cases hc : r.label = cur.label ∧ r.page = cur.page
    · obtain ⟨h, t, heq, hl, hp⟩ := ih (merge_one cur r)
      refine ⟨h, t, ?_, ?_, ?_⟩
      · simpa [merge_go, hc] using heq
      · rw [hl]; rfl
      · rw [hp]; rfl
    · exact ⟨cur, merge_go r rs, by simp [merge_go, hc], rfl, rfl⟩

/-- Adjacent records of a merged stream never share both label and page. -/
def Separated : List SpanRec → Prop
  | [] => True
  | [_] => True
  | a :: b :: rs =>
      ¬(b.label = a.label ∧ b.page = a.page) ∧ Separated (b :: rs)

lemma separated_merge_go : ∀ (rs : List SpanRec) (cur : SpanRec),
    Separated (merge_go cur rs) := by
  intro rs
  induction rs with
  | nil => intro cur; simp [merge_go, Separated]
  | cons r rs ih =>
    intro cur
    by_cases hc : r.label = cur.label ∧ r.page = cur.page
    · simpa [merge_go, hc] using ih (merge_one cur r)
    · obtain ⟨h, t, heq, hl, hp⟩ := merge_go_head rs r
      have hs := ih r
      rw [heq] at hs
      simp only [merge_go, hc, if_false, if_neg hc]
      rw [heq]
      exact ⟨by rw [hl, hp]; exact hc, hs⟩

lemma merge_go_of_separated : ∀ (rs : List SpanRec) (cur : SpanRec),
    Separated (cur :: rs) → merge_go cur rs = cur :: rs := by
  intro rs
  induction rs with
  | nil => intro cur _; rfl
  | cons r rs ih =>
    intro cur hsep
    obtain ⟨hne, hrest⟩ := hsep
    simp only [merge_go, if_neg hne]
    rw [ih r hrest]

/- ===================== Claim C7 ===================== -/

/-- Claim C7: the adjacent-span merge is idempotent: applying the merge to
its own output returns the stream unchanged. -/
theorem claim_C7 (xs : List SpanRec) :
    merge_adjacent (merge_adjacent xs) = merge_adjacent xs := by
  cases xs with
  | nil => rfl
  | cons r rs =>
    show merge_adjacent (merge_go r rs) = merge_go r rs
    obtain ⟨h, t, heq, _, _⟩ := merge_go_head rs r
    rw [heq]
    show merge_go h t = h :: t
    apply merge_go_of_separated
    have hs := separated_merge_go rs r
    rwa [heq] at hs

/- ===================== Rectangle lemmas ===================== -/

lemma rect_contains_refl (a : Rect) : rect_contains a a :=
  ⟨le_refl _, le_refl _, le_refl _, le_refl _⟩

lemma rect_contains_trans {a b c : Rect}
    (h1 : rect_contains a b) (h2 : rect_contains b c) :
    rect_contains a c :=
  ⟨le_trans h1.1 h2.1, le_trans h1.2.1 h2.2.1,
   le_trans h2.2.2.1 h1.2.2.1, le_trans h2.2.2.2 h1.2.2.2⟩

lemma rect_union_contains_left (a b : Rect) :
    rect_contains (rect_union a b) a :=
  ⟨min_le_left _ _, min_le_left _ _, le_max_left _ _, le_max_left _ _⟩

lemma rect_union_contains_right (a b : Rect) :
    rect_contains (rect_union a b) b :=
  ⟨min_le_right _ _, min_le_right _ _, le_max_right _ _, le_max_right _ _⟩

lemma foldl_rect_union_contains_init : ∀ (l : List Rect) (b : Rect),
    rect_contains (l.foldl rect_union b) b := by
  intro l
  induction l with
  | nil => intro b; exact rect_contains_refl b
  | cons r l ih =>
    intro b
    exact rect_contains_trans (ih (rect_union b r))
      (rect_union_contains_left b r)

lemma foldl_rect_union_contains_mem : ∀ (l : List Rect) (b x : Rect),
    x ∈ l → rect_contains (l.foldl rect_union b) x := by
  intro l
  induction l with
  | nil => intro b x hx; cases hx
  | cons r l ih =>
    intro b x hx
    rcases List.mem_cons.mp hx with h | h
    · subst h
      exact rect_contains_trans (foldl_rect_union_contains_init l _)
        (rect_union_contains_right b x)
    · exact ih _ x h

lemma foldl_rect_union_coords : ∀ (l : List Rect) (b : Rect),
    (l.foldl rect_union b).x0 = (l.map Rect.x0).foldl min b.x0 ∧
    (l.foldl rect_union b).y0 = (l.map Rect.y0).foldl min b.y0 ∧
    (l.foldl rect_union b).x1 = (l.map Rect.x1).foldl max b.x1 ∧
    (l.foldl rect_union b).y1 = (l.map Rect.y1).foldl max b.y1 := by
  intro l
  induction l with
  | nil => intro b; exact ⟨rfl, rfl, rfl, rfl⟩
  | cons r l ih =>
    intro b
    simpa [rect_union] using ih (rect_union b r)

lemma collapse_bbox : ∀ (as_ : List SpanRec) (a : SpanRec),
    (collapse a as_).bbox = (as_.map (fun r => r.bbox)).foldl rect_union a.bbox := by
  intro as_
  induction as_ with
  | nil => intro a; rfl
  | cons r as_ ih =>
    intro a
    show (collapse (merge_one a r) as_).bbox = _
    rw [ih (merge_one a r)]
    rfl

/-- Decomposition of the merge loop into the groups of absorbed records. -/
lemma merge_go_groups : ∀ (rs : List SpanRec) (cur : SpanRec),
    ∃ (g : List SpanRec) (groups : List (SpanRec × List SpanRec)),
      merge_go cur rs =
        collapse cur g :: groups.map (fun p => collapse p.1 p.2) ∧
      rs = g ++ (groups.map (fun p => p.1 :: p.2)).flatten := by
  intro rs
  induction rs with
  | nil => exact fun cur => ⟨[], [], rfl, rfl⟩
  | cons r rs ih =>
    intro cur
    by_cases hc : r.label = cur.label ∧ r.page = cur.page
    · obtain ⟨g, groups, h1, h2⟩ := ih (merge_one cur r)
      refine ⟨r :: g, groups, ?_, ?_⟩
      · simpa [merge_go, hc] using h1
      · simp [h2]
    · obtain ⟨g, groups, h1, h2⟩ := ih r
      refine ⟨[], (r, g) :: groups, ?_, ?_⟩
      · simp only [merge_go, if_neg hc]
        rw [h1]
        rfl
      · simp [h2]

/- ===================== Claim C8 ===================== -/

/-- Claim C8: the merged stream decomposes into consecutive groups of
absorbed units; each produced span is the collapse of its group, its
bounding rectangle is the componentwise min/max fold (the union) of the
group's rectangles, its four coordinates are the minima (x0, y0) and maxima
(x1, y1) over the absorbed units, and it contains every absorbed unit's
rectangle. -/
theorem claim_C8 (xs : List SpanRec) :
    ∃ groups : List (SpanRec × List SpanRec),
      xs = (groups.map (fun p => p.1 :: p.2)).flatten ∧
      merge_adjacent xs = groups.map (fun p => collapse p.1 p.2) ∧
      ∀ p ∈ groups,
        (collapse p.1 p.2).bbox =
          (p.2.map (fun r => r.bbox)).foldl rect_union p.1.bbox ∧
        (collapse p.1 p.2).bbox.x0 =
          (p.2.map (fun r => r.bbox.x0)).foldl min p.1.bbox.x0 ∧
        (collapse p.1 p.2).bbox.y0 =
          (p.2.map (fun r => r.bbox.y0)).foldl min p.1.bbox.y0 ∧
        (collapse p.1 p.2).bbox.x1 =
          (p.2.map (fun r => r.bbox.x1)).foldl max p.1.bbox.x1 ∧
        (collapse p.1 p.2).bbox.y1 =
          (p.2.map (fun r => r.bbox.y1)).foldl max p.1.bbox.y1 ∧
        ∀ r ∈ p.1 :: p.2, rect_contains (collapse p.1 p.2).bbox r.bbox := by
  have main : ∀ p : SpanRec × List SpanRec,
      (collapse p.1 p.2).bbox =
        (p.2.map (fun r => r.bbox)).foldl rect_union p.1.bbox ∧
      (collapse p.1 p.2).bbox.x0 =
        (p.2.map (fun r => r.bbox.x0)).foldl min p.1.bbox.x0 ∧
      (collapse p.1 p.2).bbox.y0 =
        (p.2.map (fun r => r.bbox.y0)).foldl min p.1.bbox.y0 ∧
      (collapse p.1 p.2).bbox.x1 =
        (p.2.map (fun r => r.bbox.x1)).foldl max p.1.bbox.x1 ∧
      (collapse p.1 p.2).bbox.y1 =
        (p.2.map (fun r => r.bbox.y1)).foldl max p.1.bbox.y1 ∧
      ∀ r ∈ p.1 :: p.2, rect_contains (collapse p.1 p.2).bbox r.bbox := by
    intro p
    have hb := collapse_bbox p.2 p.1
    have hco := foldl_rect_union_coords (p.2.map (fun r => r.bbox)) p.1.bbox
    refine ⟨hb, ?_, ?_, ?_, ?_, ?_⟩
    · rw [hb, hco.1, List.map_map]; rfl
    · rw [hb, hco.2.1, List.map_map]; rfl
    · rw [hb, hco.2.2.1, List.map_map]; rfl
    · rw [hb, hco.2.2.2, List.map_map]; rfl
    · intro r hr
      rcases List.mem_cons.mp hr with h | h
      · subst h
        rw [hb]
        exact foldl_rect_union_contains_init _ _
      · rw [hb]
        exact foldl_rect_union_contains_mem _ _ _
          (List.mem_map.mpr ⟨r, h, rfl⟩)
  cases xs with
  | nil => exact ⟨[], rfl, rfl, by intro p hp; cases hp⟩
  | cons r rs =>
    obtain ⟨g, groups, h1, h2⟩ := merge_go_groups rs r
    refine ⟨(r, g) :: groups, ?_, ?_, ?_⟩
    · simp [h2]
    · simpa [merge_adjacent] using h1
    · intro p _
      exact main p

/- ===================== Claim C4 ===================== -/

/-- Claim C4: the net effect of the four hard corrections applied
sequentially in the source's textual order, and the fact that the resolver
applies them after tie-break and near-tie promotion.  Because the first
firing correction moves `chosen` off the trigger value of the later ones,
the sequential chain is equivalent to this nested case split; in
particular a Technique with both analysis and result evidence becomes
Analysis (the first correction wins). -/
theorem claim_C4 :
    (∀ (c : Label) (f : Flags),
      post_corrections c f =
        if c = Label.technique ∧ f.has_analysis_test then Label.analysis
        else if c = Label.technique ∧
            (f.has_res_summary || f.has_res_verb_cues || f.has_res_stats) then
          (if f.sec = "DISCUSSION" ∨ f.sec = "INTRO" ∨ f.sec = "ABSTRACT" then
            Label.conclusion else Label.result)
        else if c = Label.OTHER ∧ f.has_experiment_ops then Label.experiment
        else if c = Label.dataset ∧ f.has_significance then Label.result
        else c) ∧
    (∀ (s : Scores) (f : Flags), f.sec ≠ "REFERENCES" →
      resolve_label s f true =
        post_corrections (resolve_choice s f.sec) f) := by
  constructor
  · intro c f
    cases c <;> simp only [post_corrections] <;> split_ifs <;> simp_all
  · intro s f hsec
    unfold resolve_label
    rw [if_neg (by simp [hsec])]

/-- Witness for C4's second clause at a concrete score vector and flag
record outside REFERENCES. -/
theorem claim_C4_witness :
    resolve_label zeroScores
      { sec := "METHODS", has_res_summary := false,
        has_res_verb_cues := false, has_res_stats := false,
        has_analysis_test := false, has_hyp_intro := false,
        has_experiment_ops := false, has_tech_using := false,
        has_scale_classification := false, has_dataset_cues := false,
        has_citation_rule := false, has_significance := false,
        has_abs_head_results := false, has_abs_head_conc := false,
        has_pct_list := false, has_hyp_surface_any := false } true =
    post_corrections
      (resolve_choice zeroScores "METHODS")
      { sec := "METHODS", has_res_summary := false,
        has_res_verb_cues := false, has_res_stats := false,
        has_analysis_test := false, has_hyp_intro := false,
        has_experiment_ops := false, has_tech_using := false,
        has_scale_classification := false, has_dataset_cues := false,
        has_citation_rule := false, has_significance := false,
        has_abs_head_results := false, has_abs_head_conc := false,
        has_pct_list := false, has_hyp_surface_any := false } :=
  claim_C4.2 zeroScores _ (by decide)

/- ===================== Claim C6 ===================== -/

/-- Claim C6: the reference-looks heuristic forces the final label to OTHER
regardless of prior resolution, and the safeguard stage is extensionally
the citation-soft filter followed by the reference forcing: the program
behaves exactly as if the reference-looks filter were applied last among
the filters that force OTHER. -/
theorem claim_C6 :
    (∀ (u : SentenceUnit) (cs : Bool),
      u.looks_reference = true → label_item u cs = Label.OTHER) ∧
    (∀ (lr hc cs : Bool) (h : HitMap) (label : Label),
      safeguards lr hc cs h label =
        ref_force lr (cit_soft_filter hc cs h label)) := by
  constructor
  · intro u cs hlr
    unfold label_item safeguards ref_force
    rw [hlr]
    simp only [if_true]
    exact cit_soft_filter_of_ne _ _ _ _ (by decide)
  · intro lr hc cs h label
    cases lr with
    | true =>
      unfold safeguards ref_force
      simp only [if_true]
      exact cit_soft_filter_of_ne _ _ _ _ (by decide)
    | false =>
      unfold safeguards ref_force
      simp

/-- Witness for C6 at a concrete unit that resolves to Result but looks
like a bibliography entry. -/
theorem claim_C6_witness :
    label_item
      { text := "J. Res. 12, pp. 33-44, 2019", lemmas := [],
        surfaceHits := ["RES_SUMMARY"], depHits := [],
        section_hint := "RESULTS", has_citation := false,
        looks_reference := true, page := 2, bbox := ⟨0, 0, 1, 1⟩ }
      true = Label.OTHER :=
  claim_C6.1 _ true (by decide)

/- ===================== Hit-map lemmas ===================== -/

lemma bump_ne_nil (h : HitMap) (name : String) : bump h name ≠ [] := by
  cases h with
  | nil => simp [bump]
  | cons kv rest =>
    obtain ⟨k, v⟩ := kv
    unfold bump
    split_ifs <;> simp

lemma foldl_bump_ne_nil : ∀ (names : List String) (h : HitMap),
    h ≠ [] → names.foldl bump h ≠ [] := by
  intro names
  induction names with
  | nil => intro h hne; exact hne
  | cons n rest ih => intro h _; exact ih (bump h n) (bump_ne_nil h n)

lemma build_hits_ne_nil (names : List String) (hne : names ≠ []) :
    build_hits names ≠ [] := by
  cases names with
  | nil => exact absurd rfl hne
  | cons n rest =>
    exact foldl_bump_ne_nil rest (bump [] n) (bump_ne_nil [] n)

lemma bump_entries (Q : String → Prop) (h : HitMap) (name : String)
    (hh : ∀ kv ∈ h, Q kv.1 ∧ 1 ≤ kv.2) (hq : Q name) :
    ∀ kv ∈ bump h name, Q kv.1 ∧ 1 ≤ kv.2 := by
  induction h with
  | nil =>
    intro kv hkv
    simp only [bump, List.mem_singleton] at hkv
    subst hkv
    exact ⟨hq, le_refl 1⟩
  | cons kv0 rest ih =>
    obtain ⟨k, v⟩ := kv0
    intro kv hkv
    unfold bump at hkv
    split_ifs at hkv with he
    · rcases List.mem_cons.mp hkv with h1 | h1
      · subst h1
        refine ⟨(hh (k, v) (List.mem_cons_self _ _)).1, ?_⟩
        have := (hh (k, v) (List.mem_cons_self _ _)).2
        omega
      · exact hh kv (List.mem_cons_of_mem _ h1)
    · rcases List.mem_cons.mp hkv with h1 | h1
      · subst h1; exact hh (k, v) (List.mem_cons_self _ _)
      · exact ih (fun kv hkv => hh kv (List.mem_cons_of_mem _ hkv)) kv h1

lemma foldl_bump_entries (Q : String → Prop) :
    ∀ (names : List String) (h : HitMap),
    (∀ kv ∈ h, Q kv.1 ∧ 1 ≤ kv.2) → (∀ n ∈ names, Q n) →
    ∀ kv ∈ names.foldl bump h, Q kv.1 ∧ 1 ≤ kv.2 := by
  intro names
  induction names with
  | nil => intro h hh _; exact hh
  | cons n rest ih =>
    intro h hh hn
    exact ih (bump h n)
      (bump_entries Q h n hh (hn n (List.mem_cons_self _ _)))
      (fun m hm => hn m (List.mem_cons_of_mem _ hm))

lemma build_hits_entries (Q : String → Prop) (names : List String)
    (hn : ∀ n ∈ names, Q n) :
    ∀ kv ∈ build_hits names, Q kv.1 ∧ 1 ≤ kv.2 :=
  foldl_bump_entries Q names [] (by intro kv hkv; cases hkv) hn

lemma raw_hits_of_no_cit (u : SentenceUnit) (h : u.has_citation = false) :
    (raw_scores_hits u).2 = build_hits (u.surfaceHits ++ u.depHits) := by
  unfold raw_scores_hits score_sentence
  simp [h]

/- ===================== Claim C5 ===================== -/

lemma cit_soft_filter_forces (h : HitMap) (label : Label)
    (h1 : 0 < cit_hits_sum h) (h2 : non_cit_hits_sum h = 0) :
    cit_soft_filter false true h label ≠ Label.inputFact := by
  unfold cit_soft_filter
  by_cases hl : label = Label.inputFact <;> simp [hl, h1, h2]

/-- Claim C5: with citation-soft mode enabled and no structural citation
marker, a unit whose fired rules all belong to the citation-rule family
(at least one, none of any other family) never ends up labeled
"Input Fact"; a resolved "Input Fact" is downgraded to OTHER. -/
theorem claim_C5 (u : SentenceUnit)
    (hnc : u.has_citation = false)
    (hne : u.surfaceHits ++ u.depHits ≠ [])
    (hall : ∀ name ∈ u.surfaceHits ++ u.depHits,
      starts_with name "INF_CIT_" = true) :
    label_item u true ≠ Label.inputFact ∧
    (resolved_label u = Label.inputFact → label_item u true = Label.OTHER) := by
  have hhits := raw_hits_of_no_cit u hnc
  have hent := build_hits_entries
    (fun n => starts_with n "INF_CIT_" = true) _ hall
  have hcitkey : ∀ kv ∈ (raw_scores_hits u).2, is_cit_key kv.1 = true := by
    intro kv hkv
    rw [hhits] at hkv
    unfold is_cit_key
    rw [(hent kv hkv).1]
    rfl
  have hnon : non_cit_hits_sum (raw_scores_hits u).2 = 0 := by
    unfold non_cit_hits_sum
    have : ((raw_scores_hits u).2).filter (fun kv => !is_cit_key kv.1) = [] := by
      rw [List.filter_eq_nil_iff]
      intro kv hkv
      simp [hcitkey kv hkv]
    rw [this]
    rfl
  have hcit : 0 < cit_hits_sum (raw_scores_hits u).2 := by
    unfold cit_hits_sum
    have hself : ((raw_scores_hits u).2).filter (fun kv => is_cit_key kv.1)
        = (raw_scores_hits u).2 := by
      rw [List.filter_eq_self]
      intro kv hkv
      exact hcitkey kv hkv
    rw [hself]
    have hmapne : (raw_scores_hits u).2 ≠ [] := by
      rw [hhits]; exact build_hits_ne_nil _ hne
    obtain ⟨kv, t, heq⟩ := List.exists_cons_of_ne_nil hmapne
    rw [heq]
    have hpos : 1 ≤ kv.2 := by
      have : kv ∈ (raw_scores_hits u).2 := by rw [heq]; exact List.mem_cons_self _ _
      rw [hhits] at this
      exact (hent kv this).2
    simp only [List.map_cons, List.sum_cons]
    omega
  constructor
  · unfold label_item safeguards
    rw [hnc]
    exact cit_soft_filter_forces _ _ hcit hnon
  · intro hres
    unfold label_item safeguards ref_force
    rw [hnc, hres]
    cases hlr : u.looks_reference with
    | true =>
      rw [if_pos rfl]
      exact cit_soft_filter_of_ne _ _ _ _ (by decide)
    | false =>
      rw [if_neg (by simp)]
      unfold cit_soft_filter
      simp [hcit, hnon]

/-- Witness for C5 at a concrete unit whose only fired rule is the
bracketed-number citation pattern. -/
theorem claim_C5_witness :
    label_item
      { text := "See [12].", lemmas := [], surfaceHits := ["INF_CIT_BRACK_NUM"],
        depHits := [], section_hint := "INTRO", has_citation := false,
        looks_reference := false, page := 1, bbox := ⟨0, 0, 1, 1⟩ }
      true ≠ Label.inputFact :=
  (claim_C5 _ (by decide) (by decide) (by decide)).1

/- ===================== Score-vector closed form ===================== -/

lemma add_getD (s : Scores) (l : Label) (v : Int) (l' : Label) :
    (s.add l v).getD l' 0 =
      s.getD l' 0 + (if l' = l ∧ l ≠ Label.OTHER then v else 0) := by
  cases l <;> cases l' <;> simp [Scores.add, Scores.getD, Scores.get?]

lemma ite_add_getD (c : Bool) (s : Scores) (li : Label) (v : Int)
    (l : Label) :
    (if c then s.add li v else s).getD l 0 =
      s.getD l 0 + (if c ∧ l = li ∧ li ≠ Label.OTHER then v else 0) := by
  cases c <;> simp [add_getD]

lemma zero_getD (l : Label) : zeroScores.getD l 0 = 0 := by
  cases l <;> rfl

/-- The per-surface-hit increment to a given label's score. -/
def surf_inc (name : String) (l : Label) : Int :=
  match l with
  | Label.inputFact =>
      (if starts_with name "INF_" then 1 else 0) +
      (if starts_with name "INF_CIT_" then 3 else 0)
  | Label.hypothesis => if starts_with name "HYP_" then 1 else 0
  | Label.experiment => if starts_with name "EXP_" then 1 else 0
  | Label.technique => if starts_with name "TEC_" then 1 else 0
  | Label.result => if starts_with name "RES_" then 1 else 0
  | Label.dataset => if starts_with name "DATA_" then 1 else 0
  | Label.analysis => if starts_with name "ANA_" then 1 else 0
  | Label.conclusion => if starts_with name "CONC_" then 1 else 0
  | Label.OTHER => 0

/-- The per-dependency-hit increment to a given label's score. -/
def dep_inc (name : String) (l : Label) : Int :=
  match l with
  | Label.inputFact => if starts_with name "INF_" then 2 else 0
  | Label.hypothesis => if starts_with name "HYP_" then 2 else 0
  | Label.experiment => if starts_with name "EXP_" then 2 else 0
  | Label.technique => if starts_with name "TEC_" then 2 else 0
  | Label.result => if starts_with name "RES_" then 2 else 0
  | Label.dataset => if starts_with name "DATA_" then 2 else 0
  | Label.analysis => if starts_with name "ANA_" then 2 else 0
  | Label.conclusion => if starts_with name "CONC_" then 2 else 0
  | Label.OTHER => 0

lemma surf_step_getD (s : Scores) (name : String) (l : Label) :
    (surf_step s name).getD l 0 = s.getD l 0 + surf_inc name l := by
  cases l <;>
    simp only [surf_step, PREFIX2LABEL, List.foldl_cons, List.foldl_nil,
      CIT_RULE_BONUS] <;>
    simp [ite_add_getD, surf_inc] <;>
    split_ifs <;> omega

lemma dep_step_getD (s : Scores) (name : String) (l : Label) :
    (dep_step s name).getD l 0 = s.getD l 0 + dep_inc name l := by
  cases l <;>
    simp only [dep_step, PREFIX2LABEL, List.foldl_cons, List.foldl_nil] <;>
    simp [ite_add_getD, dep_inc] <;>
    split_ifs <;> omega

lemma foldl_surf_getD : ∀ (names : List String) (s : Scores) (l : Label),
    (names.foldl surf_step s).getD l 0 =
      s.getD l 0 + (names.map (fun n => surf_inc n l)).sum := by
  intro names
  induction names with
  | nil => intro s l; simp
  | cons n rest ih =>
    intro s l
    simp only [List.foldl_cons, List.map_cons, List.sum_cons]
    rw [ih, surf_step_getD]
    ring

lemma foldl_dep_getD : ∀ (names : List String) (s : Scores) (l : Label),
    (names.foldl dep_step s).getD l 0 =
      s.getD l 0 + (names.map (fun n => dep_inc n l)).sum := by
  intro names
  induction names with
  | nil => intro s l; simp
  | cons n rest ih =>
    intro s l
    simp only [List.foldl_cons, List.map_cons, List.sum_cons]
    rw [ih, dep_step_getD]
    ring

/-- The section-prior weight a section contributes to a label. -/
def prior_w (sec : String) (l : Label) : Int :=
  ((((section_priors sec).find? (fun lw => decide (lw.1 = l))).map
    (fun lw => lw.2))).getD 0

lemma apply_priors_getD (s : Scores) (sec : String) (l : Label) :
    (apply_priors s sec).getD l 0 = s.getD l 0 + prior_w sec l := by
  unfold apply_priors prior_w section_priors
  split_ifs <;> cases l <;>
    simp [add_getD, List.find?, List.foldl_cons, List.foldl_nil]

lemma sum_map_add_int (f g : String → Int) : ∀ (names : List String),
    (names.map (fun n => f n + g n)).sum =
      (names.map f).sum + (names.map g).sum := by
  intro names
  induction names with
  | nil => simp
  | cons n rest ih => simp [ih]; ring

/-- How many list elements carry a given identifier head, as an integer. -/
def count_with_head (names : List String) (p : String) : Int :=
  ((names.filter (fun n => starts_with n p)).length : Int)

lemma sum_map_ite_int (p : String → Bool) (v : Int) :
    ∀ (names : List String),
    (names.map (fun n => if p n then v else 0)).sum =
      v * ((names.filter p).length : Int) := by
  intro names
  induction names with
  | nil => simp
  | cons n rest ih =>
    by_cases hp : p n <;> simp [hp, ih] <;> push_cast <;> ring

lemma scores_ext {s t : Scores} (h : ∀ l, s.getD l 0 = t.getD l 0) :
    s = t := by
  obtain ⟨a1, a2, a3, a4, a5, a6, a7, a8⟩ := s
  obtain ⟨b1, b2, b3, b4, b5, b6, b7, b8⟩ := t
  have h1 := h Label.inputFact
  have h2 := h Label.hypothesis
  have h3 := h Label.experiment
  have h4 := h Label.technique
  have h5 := h Label.result
  have h6 := h Label.dataset
  have h7 := h Label.analysis
  have h8 := h Label.conclusion
  simp [Scores.getD, Scores.get?] at h1 h2 h3 h4 h5 h6 h7 h8
  simp [h1, h2, h3, h4, h5, h6, h7, h8]

/-- The closed-form score vector the code actually computes (the amended
form of claim C2): +1 per surface hit with the label's role prefix, +2 per
dependency hit with that prefix, +3 to Input Fact per SURFACE hit in the
citation-rule family (prefix INF_CIT_), the per-section priors, and +4 to
Input Fact for the structural-citation flag. -/
def amended_c2_scores (u : SentenceUnit) : Scores :=
  let sec := upper_str u.section_hint
  let sc := count_with_head u.surfaceHits
  let dc := count_with_head u.depHits
  { inputFact := sc "INF_" + 2 * dc "INF_" + 3 * sc "INF_CIT_" +
      prior_w sec Label.inputFact + (if u.has_citation then 4 else 0)
    hypothesis := sc "HYP_" + 2 * dc "HYP_" + prior_w sec Label.hypothesis
    experiment := sc "EXP_" + 2 * dc "EXP_" + prior_w sec Label.experiment
    technique := sc "TEC_" + 2 * dc "TEC_" + prior_w sec Label.technique
    result := sc "RES_" + 2 * dc "RES_" + prior_w sec Label.result
    dataset := sc "DATA_" + 2 * dc "DATA_" + prior_w sec Label.dataset
    analysis := sc "ANA_" + 2 * dc "ANA_" + prior_w sec Label.analysis
    conclusion := sc "CONC_" + 2 * dc "CONC_" + prior_w sec Label.conclusion }

/-- The score vector exactly as claim C2's sentence reads: the citation
bonus of +3 counted per hit of the citation-rule family, whether the hit is
a surface hit or a relational hit. -/
def literal_c2_scores (u : SentenceUnit) : Scores :=
  let sec := upper_str u.section_hint
  let sc := count_with_head u.surfaceHits
  let dc := count_with_head u.depHits
  { inputFact := sc "INF_" + 2 * dc "INF_" +
      3 * (sc "INF_CIT_" + dc "INF_CIT_") +
      prior_w sec Label.inputFact + (if u.has_citation then 4 else 0)
    hypothesis := sc "HYP_" + 2 * dc "HYP_" + prior_w sec Label.hypothesis
    experiment := sc "EXP_" + 2 * dc "EXP_" + prior_w sec Label.experiment
    technique := sc "TEC_" + 2 * dc "TEC_" + prior_w sec Label.technique
    result := sc "RES_" + 2 * dc "RES_" + prior_w sec Label.result
    dataset := sc "DATA_" + 2 * dc "DATA_" + prior_w sec Label.dataset
    analysis := sc "ANA_" + 2 * dc "ANA_" + prior_w sec Label.analysis
    conclusion := sc "CONC_" + 2 * dc "CONC_" + prior_w sec Label.conclusion }

lemma prior_w_OTHER (sec : String) : prior_w sec Label.OTHER = 0 := by
  unfold prior_w section_priors
  split_ifs <;> simp [List.find?]

lemma raw_scores_closed (u : SentenceUnit) :
    (raw_scores_hits u).1 = amended_c2_scores u := by
  apply scores_ext
  intro l
  have hbase : (score_sentence u.surfaceHits u.depHits
      (upper_str u.section_hint)).1.getD l 0 =
      (u.surfaceHits.map (fun n => surf_inc n l)).sum +
      (u.depHits.map (fun n => dep_inc n l)).sum +
      prior_w (upper_str u.section_hint) l := by
    unfold score_sentence
    rw [apply_priors_getD, foldl_dep_getD, foldl_surf_getD, zero_getD]
    ring
  have hraw : (raw_scores_hits u).1.getD l 0 =
      (u.surfaceHits.map (fun n => surf_inc n l)).sum +
      (u.depHits.map (fun n => dep_inc n l)).sum +
      prior_w (upper_str u.section_hint) l +
      (if u.has_citation = true ∧ l = Label.inputFact then 4 else 0) := by
    unfold raw_scores_hits
    cases hc : u.has_citation with
    | false =>
      simp only [Bool.false_eq_true, if_false, false_and]
      rw [hbase]
      simp
    | true =>
      simp only [if_true]
      rw [add_getD, hbase]
      by_cases hl : l = Label.inputFact <;> simp [hl, CIT_STRUCT_BONUS]
  rw [hraw]
  cases l <;>
    simp [amended_c2_scores, Scores.getD, Scores.get?, surf_inc, dep_inc,
      prior_w_OTHER,
      sum_map_add_int (fun n => if starts_with n "INF_" then (1 : Int) else 0)
        (fun n => if starts_with n "INF_CIT_" then (3 : Int) else 0),
      sum_map_ite_int, count_with_head] <;>
    ring

lemma hits_count_bump (h : HitMap) (m n : String) :
    hits_count (bump h m) n = hits_count h n + (if n = m then 1 else 0) := by
  induction h with
  | nil =>
    by_cases hn : n = m
    · subst hn; simp [bump, hits_count]
    · have hmn : ¬m = n := fun he => hn he.symm
      simp [bump, hits_count, hn, hmn]
  | cons kv rest ih =>
    obtain ⟨k, v⟩ := kv
    unfold bump
    by_cases hk : k = m
    · subst hk
      by_cases hn : k = n
      · subst hn; simp [hits_count]
      · have hnk : ¬n = k := fun he => hn he.symm
        simp [hits_count, hn, hnk]
    · simp only [if_neg hk]
      by_cases hn : k = n
      · subst hn
        simp [hits_count, hk]
      · simp [hits_count, hn, ih]

lemma hits_count_foldl :
    ∀ (names : List String) (h : HitMap) (n : String),
    hits_count (names.foldl bump h) n = hits_count h n + names.count n := by
  intro names
  induction names with
  | nil => intro h n; simp
  | cons m rest ih =>
    intro h n
    simp only [List.foldl_cons]
    rw [ih, hits_count_bump, List.count_cons]
    by_cases hn : n = m
    · simp [hn]
      omega
    · simp [hn]
      exact fun he => hn he.symm

lemma hits_count_build (names : List String) (n : String) :
    hits_count (build_hits names) n = names.count n := by
  unfold build_hits
  rw [hits_count_foldl]
  simp [hits_count]

/-- The hit map produced for a unit: the multiset of fired rule identifiers
plus one synthetic INF_CIT_STRUCT entry when the structural citation flag
is set. -/
lemma raw_hits_count (u : SentenceUnit) (name : String) :
    hits_count (raw_scores_hits u).2 name =
      (u.surfaceHits ++ u.depHits).count name +
      (if u.has_citation = true ∧ name = "INF_CIT_STRUCT" then 1 else 0) := by
  unfold raw_scores_hits score_sentence
  cases hc : u.has_citation with
  | false => simp [hits_count_build]
  | true =>
    simp only [if_true]
    rw [hits_count_bump, hits_count_build]
    simp

/- ===================== Claim C2 ===================== -/

/-- Counterexample to C2 as stated: a unit whose only fired rule is a
RELATIONAL hit in the citation-rule family.  The code adds the +3 citation
bonus only in the surface loop, so Input Fact scores 2 (the +2 relational
role increment), while the claim's formula (+3 per citation-family hit,
surface or relational) predicts 5. -/
theorem claim_C2_counterexample :
    (raw_scores_hits
      { text := "t", lemmas := [], surfaceHits := [],
        depHits := ["INF_CIT_DOI"], section_hint := "OTHER",
        has_citation := false, looks_reference := false, page := 1,
        bbox := ⟨0, 0, 1, 1⟩ }).1.inputFact = 2 ∧
    (literal_c2_scores
      { text := "t", lemmas := [], surfaceHits := [],
        depHits := ["INF_CIT_DOI"], section_hint := "OTHER",
        has_citation := false, looks_reference := false, page := 1,
        bbox := ⟨0, 0, 1, 1⟩ }).inputFact = 5 ∧
    (raw_scores_hits
      { text := "t", lemmas := [], surfaceHits := [],
        depHits := ["INF_CIT_DOI"], section_hint := "OTHER",
        has_citation := false, looks_reference := false, page := 1,
        bbox := ⟨0, 0, 1, 1⟩ }).1 ≠
    (literal_c2_scores
      { text := "t", lemmas := [], surfaceHits := [],
        depHits := ["INF_CIT_DOI"], section_hint := "OTHER",
        has_citation := false, looks_reference := false, page := 1,
        bbox := ⟨0, 0, 1, 1⟩ }) := by
  refine ⟨by decide, by decide, by decide⟩

/-- Claim C2 as amended: the aggregated score vector equals the closed
form in which the +3 citation-family bonus counts SURFACE hits only
(+1 per role-prefixed surface hit, +2 per role-prefixed relational hit,
section priors, +4 Input Fact structural bonus), and the hit map holds each
fired identifier with its multiplicity plus the synthetic structural hit. -/
theorem claim_C2 (u : SentenceUnit) :
    (raw_scores_hits u).1 = amended_c2_scores u ∧
    ∀ name, hits_count (raw_scores_hits u).2 name =
      (u.surfaceHits ++ u.depHits).count name +
      (if u.has_citation = true ∧ name = "INF_CIT_STRUCT" then 1 else 0) :=
  ⟨raw_scores_closed u, raw_hits_count u⟩

/- ===================== Nonnegativity (Claim C9) ===================== -/

lemma prior_w_nonneg (sec : String) (l : Label) : 0 ≤ prior_w sec l := by
  unfold prior_w section_priors
  split_ifs <;> cases l <;> simp [List.find?]

lemma count_with_head_nonneg (names : List String) (p : String) :
    0 ≤ count_with_head names p := Int.natCast_nonneg _

lemma amended_nonneg (u : SentenceUnit) : (amended_c2_scores u).nonneg := by
  have hs := fun p => count_with_head_nonneg u.surfaceHits p
  have hd := fun p => count_with_head_nonneg u.depHits p
  have hp := fun l => prior_w_nonneg (upper_str u.section_hint) l
  unfold amended_c2_scores Scores.nonneg
  dsimp only
  refine ⟨?_, ?_, ?_, ?_, ?_, ?_, ?_, ?_⟩
  · have h1 := hs "INF_"; have h2 := hd "INF_"; have h3 := hs "INF_CIT_"
    have h4 := hp Label.inputFact
    split_ifs <;> omega
  · have h1 := hs "HYP_"; have h2 := hd "HYP_"
    have h3 := hp Label.hypothesis
    omega
  · have h1 := hs "EXP_"; have h2 := hd "EXP_"
    have h3 := hp Label.experiment
    omega
  · have h1 := hs "TEC_"; have h2 := hd "TEC_"
    have h3 := hp Label.technique
    omega
  · have h1 := hs "RES_"; have h2 := hd "RES_"
    have h3 := hp Label.result
    omega
  · have h1 := hs "DATA_"; have h2 := hd "DATA_"
    have h3 := hp Label.dataset
    omega
  · have h1 := hs "ANA_"; have h2 := hd "ANA_"
    have h3 := hp Label.analysis
    omega
  · have h1 := hs "CONC_"; have h2 := hd "CONC_"
    have h3 := hp Label.conclusion
    omega

lemma raw_scores_nonneg (u : SentenceUnit) :
    ((raw_scores_hits u).1).nonneg := by
  rw [raw_scores_closed]
  exact amended_nonneg u

lemma boost_ana_nonneg (s : Scores) (f : Flags) (h : s.nonneg) :
    (boost_ana s f).nonneg := by
  unfold boost_ana
  unfold Scores.nonneg at h ⊢
  split_ifs
  all_goals try dsimp only
  all_goals omega

lemma boost_res_nonneg (s : Scores) (f : Flags) (h : s.nonneg) :
    (boost_res s f).nonneg := by
  unfold boost_res
  unfold Scores.nonneg at h ⊢
  split_ifs
  all_goals try dsimp only
  all_goals omega

lemma boost_hyp_intro_nonneg (s : Scores) (f : Flags) (h : s.nonneg) :
    (boost_hyp_intro s f).nonneg := by
  unfold boost_hyp_intro
  unfold Scores.nonneg at h ⊢
  split_ifs
  all_goals try dsimp only
  all_goals omega

lemma boost_exp_nonneg (s : Scores) (f : Flags) (h : s.nonneg) :
    (boost_exp s f).nonneg := by
  unfold boost_exp
  unfold Scores.nonneg at h ⊢
  split_ifs
  all_goals try dsimp only
  all_goals omega

lemma boost_tec_nonneg (s : Scores) (f : Flags) (h : s.nonneg) :
    (boost_tec s f).nonneg := by
  unfold boost_tec
  unfold Scores.nonneg at h ⊢
  split_ifs
  all_goals try dsimp only
  all_goals omega

lemma boost_data_nonneg (s : Scores) (f : Flags) (h : s.nonneg) :
    (boost_data s f).nonneg := by
  unfold boost_data
  unfold Scores.nonneg at h ⊢
  split_ifs
  all_goals try dsimp only
  all_goals omega

lemma boost_inf_cit_nonneg (s : Scores) (f : Flags) (h : s.nonneg) :
    (boost_inf_cit s f).nonneg := by
  unfold boost_inf_cit
  unfold Scores.nonneg at h ⊢
  split_ifs
  all_goals try dsimp only
  all_goals omega

lemma boost_abstract_nonneg (s : Scores) (f : Flags) (h : s.nonneg) :
    (boost_abstract s f).nonneg := by
  unfold boost_abstract
  unfold Scores.nonneg at h ⊢
  split_ifs
  all_goals try dsimp only
  all_goals omega

lemma boost_data_sec_nonneg (s : Scores) (f : Flags) (h : s.nonneg) :
    (boost_data_sec s f).nonneg := by
  unfold boost_data_sec
  unfold Scores.nonneg at h ⊢
  split_ifs
  all_goals try dsimp only
  all_goals omega

lemma boost_hyp_over_tec_nonneg (s : Scores) (f : Flags) (h : s.nonneg) :
    (boost_hyp_over_tec s f).nonneg := by
  unfold boost_hyp_over_tec
  unfold Scores.nonneg at h ⊢
  split_ifs with hc
  · simp only [Bool.and_eq_true, decide_eq_true_eq] at hc
    dsimp only
    omega
  · omega

lemma apply_boosts_nonneg (s : Scores) (f : Flags) (h : s.nonneg) :
    (apply_boosts s f).nonneg := by
  unfold apply_boosts
  exact boost_hyp_over_tec_nonneg _ _ (boost_data_sec_nonneg _ _
    (boost_abstract_nonneg _ _ (boost_inf_cit_nonneg _ _
      (boost_data_nonneg _ _ (boost_tec_nonneg _ _
        (boost_exp_nonneg _ _ (boost_hyp_intro_nonneg _ _
          (boost_res_nonneg _ _ (boost_ana_nonneg _ _ h)))))))))

/-- Claim C9: every entry of a unit's score vector is nonnegative, both
after raw aggregation (rule hits, priors, structural bonus) and after the
boosts: every increment adds a nonnegative weight to scores initialized at
zero, and the single subtraction (Technique − 1) is guarded by a strictly
positive Technique score. -/
theorem claim_C9 (u : SentenceUnit) :
    ((raw_scores_hits u).1).nonneg ∧ (unit_scores u).nonneg :=
  ⟨raw_scores_nonneg u,
   apply_boosts_nonneg _ _ (raw_scores_nonneg u)⟩

/- ===================== Resolver lemmas (Claim C10) ===================== -/

lemma max_score_attained (s : Scores) :
    ∃ l, l ∈ LABELS ∧ s.getD l 0 = max_score s := by
  unfold max_score
  rcases max_choice s.inputFact (max s.hypothesis (max s.experiment
    (max s.technique (max s.result (max s.dataset
      (max s.analysis s.conclusion)))))) with h | h
  · exact ⟨Label.inputFact, by decide, h.symm⟩
  · rw [h]
    rcases max_choice s.hypothesis (max s.experiment (max s.technique
      (max s.result (max s.dataset (max s.analysis s.conclusion))))) with
        h2 | h2
    · exact ⟨Label.hypothesis, by decide, h2.symm⟩
    · rw [h2]
      rcases max_choice s.experiment (max s.technique (max s.result
        (max s.dataset (max s.analysis s.conclusion)))) with h3 | h3
      · exact ⟨Label.experiment, by decide, h3.symm⟩
      · rw [h3]
        rcases max_choice s.technique (max s.result (max s.dataset
          (max s.analysis s.conclusion))) with h4 | h4
        · exact ⟨Label.technique, by decide, h4.symm⟩
        · rw [h4]
          rcases max_choice s.result (max s.dataset
            (max s.analysis s.conclusion)) with h5 | h5
          · exact ⟨Label.result, by decide, h5.symm⟩
          · rw [h5]
            rcases max_choice s.dataset (max s.analysis s.conclusion) with
              h6 | h6
            · exact ⟨Label.dataset, by decide, h6.symm⟩
            · rw [h6]
              rcases max_choice s.analysis s.conclusion with h7 | h7
              · exact ⟨Label.analysis, by decide, h7.symm⟩
              · rw [h7]
                exact ⟨Label.conclusion, by decide, rfl⟩

lemma candidates_ne_nil (s : Scores) : candidates s ≠ [] := by
  obtain ⟨l, hl, he⟩ := max_score_attained s
  have hmem : l ∈ candidates s := by
    unfold candidates
    exact List.mem_filter.mpr ⟨hl, by simp [he]⟩
  exact List.ne_nil_of_mem hmem

lemma fold_min_mem (key : Label → Nat) : ∀ (rest : List Label) (x : Label),
    (rest.foldl (fun best y => if key y < key best then y else best) x) ∈
      x :: rest := by
  intro rest
  induction rest with
  | nil => intro x; exact List.mem_singleton_self x
  | cons y rest ih =>
    intro x
    simp only [List.foldl_cons]
    by_cases hc : key y < key x
    · simp only [if_pos hc]
      exact List.mem_cons_of_mem _ (ih y)
    · simp only [if_neg hc]
      rcases List.mem_cons.mp (ih x) with h | h
      · rw [h]; exact List.mem_cons_self _ _
      · exact List.mem_cons_of_mem _ (List.mem_cons_of_mem _ h)

lemma first_min_by_mem (key : Label → Nat) (xs : List Label)
    (h : xs ≠ []) : first_min_by key xs ∈ xs := by
  cases xs with
  | nil => exact absurd rfl h
  | cons x rest => exact fold_min_mem key rest x

lemma getD_OTHER (s : Scores) (d : Int) : s.getD Label.OTHER d = d := rfl

lemma near_tie_loop_ne_OTHER :
    ∀ (order : List Label) (s : Scores) (m : Int) (chosen : Label),
    chosen ≠ Label.OTHER → 0 ≤ m →
    near_tie_loop order s m chosen ≠ Label.OTHER := by
  intro order
  induction order with
  | nil => intro s m chosen h _; exact h
  | cons p rest ih =>
    intro s m chosen h hm
    unfold near_tie_loop
    split_ifs with h1 h2
    · exact h
    · intro hp
      subst hp
      rw [getD_OTHER] at h2
      omega
    · exact ih s m chosen h hm

lemma post_corrections_ne_OTHER (c : Label) (f : Flags)
    (h : c ≠ Label.OTHER) : post_corrections c f ≠ Label.OTHER := by
  simp only [post_corrections]
  split_ifs <;> simp_all

lemma resolve_choice_ne_OTHER (s : Scores) (sec : String)
    (hm : 0 ≤ max_score s) : resolve_choice s sec ≠ Label.OTHER := by
  unfold resolve_choice
  apply near_tie_loop_ne_OTHER _ _ _ _ _ hm
  have hmem := first_min_by_mem (order_index (tie_order_for sec))
    (candidates s) (candidates_ne_nil s)
  have hlab : first_min_by (order_index (tie_order_for sec))
      (candidates s) ∈ LABELS := by
    unfold candidates at hmem
    exact (List.mem_filter.mp hmem).1
  have hno : ∀ l ∈ LABELS, l ≠ Label.OTHER := by decide
  exact hno _ hlab

/- ===================== Claim C10 ===================== -/

/-- Claim C10: over score vectors with nonnegative maximum (every vector
the pipeline produces, by C9), when at least one rule fired and the
section is not REFERENCES the resolver returns one of the eight role
labels and never OTHER: OTHER has no score entry (its lookup falls back
to −999, which can never sit within 1 point of the maximum), so OTHER is
neither a max-score candidate nor a near-tie promotion, and the
"OTHER chosen with experiment-operation evidence" correction is
unreachable. -/
theorem claim_C10 (s : Scores) (f : Flags) (hm : 0 ≤ max_score s)
    (hsec : f.sec ≠ "REFERENCES") :
    resolve_choice s f.sec ≠ Label.OTHER ∧
    resolve_label s f true ≠ Label.OTHER := by
  refine ⟨resolve_choice_ne_OTHER s f.sec hm, ?_⟩
  unfold resolve_label
  rw [if_neg (by simp [hsec])]
  exact post_corrections_ne_OTHER _ f (resolve_choice_ne_OTHER s f.sec hm)

/-- Witness for C10 at the all-zero score vector in section METHODS. -/
theorem claim_C10_witness :
    resolve_choice zeroScores "METHODS" ≠ Label.OTHER ∧
    resolve_label zeroScores
      ⟨"METHODS", false, false, false, false, false, false, false, false,
       false, false, false, false, false, false, false⟩ true ≠
      Label.OTHER :=
  claim_C10 zeroScores
    ⟨"METHODS", false, false, false, false, false, false, false, false,
     false, false, false, false, false, false, false⟩
    (by decide) (by decide)

/- ===================== Claim C3 ===================== -/

/-- Spec-side tie winner: "resolve ties using the per-section
preferred-order list; the first candidate in that order wins". -/
def tie_winner_spec (order cands : List Label) : Label :=
  (order.find? (fun o => decide (o ∈ cands))).getD Label.OTHER

/-- Spec-side near-tie promotion: "walking the same preferred-order list
from the top, the first label preceding the chosen one whose score is
within 1 point of the maximum is promoted over the tie-break winner"
(a label absent from the score dict reads as −999, as in the code). -/
def near_tie_spec (order : List Label) (s : Scores) (m : Int)
    (chosen : Label) : Label :=
  ((order.takeWhile (fun p => decide (p ≠ chosen))).find?
      (fun p => decide (m - 1 ≤ s.getD p (-999)))).getD chosen

lemma near_tie_eq : ∀ (order : List Label) (s : Scores) (m : Int)
    (chosen : Label),
    near_tie_loop order s m chosen = near_tie_spec order s m chosen := by
  intro order
  induction order with
  | nil => intro s m chosen; rfl
  | cons p rest ih =>
    intro s m chosen
    unfold near_tie_loop near_tie_spec
    by_cases h1 : p = chosen
    · simp [h1]
    · by_cases h2 : m - 1 ≤ s.getD p (-999)
      · rw [if_neg h1, if_pos h2, List.takeWhile_cons,
          if_pos (by simpa using h1),
          List.find?_cons_of_pos _ (by simpa using h2)]
        rfl
      · rw [if_neg h1, if_neg h2, List.takeWhile_cons,
          if_pos (by simpa using h1),
          List.find?_cons_of_neg _ (by simpa using h2)]
        exact ih s m chosen

lemma fold_min_le (key : Label → Nat) : ∀ (rest : List Label) (x c : Label),
    c ∈ x :: rest →
    key (rest.foldl (fun best y => if key y < key best then y else best) x)
      ≤ key c := by
  intro rest
  induction rest with
  | nil =>
    intro x c hc
    rcases List.mem_cons.mp hc with h | h
    · subst h; exact le_refl _
    · cases h
  | cons y rest ih =>
    intro x c hc
    simp only [List.foldl_cons]
    have hstep : key (if key y < key x then y else x) ≤ key x ∧
        key (if key y < key x then y else x) ≤ key y := by
      by_cases h : key y < key x <;> simp [h] <;> omega
    rcases List.mem_cons.mp hc with h | h
    · subst h
      exact le_trans (ih _ _ (List.mem_cons_self _ _)) hstep.1
    · rcases List.mem_cons.mp h with h' | h'
      · subst h'
        exact le_trans (ih _ _ (List.mem_cons_self _ _)) hstep.2
      · exact ih _ c (List.mem_cons_of_mem _ h')

lemma fold_min_congr (k1 k2 : Label → Nat) :
    ∀ (rest : List Label) (x : Label),
    (∀ a ∈ x :: rest, ∀ b ∈ x :: rest, (k1 a < k1 b ↔ k2 a < k2 b)) →
    rest.foldl (fun best y => if k1 y < k1 best then y else best) x =
      rest.foldl (fun best y => if k2 y < k2 best then y else best) x := by
  intro rest
  induction rest with
  | nil => intro x _; rfl
  | cons y rest ih =>
    intro x hiff
    simp only [List.foldl_cons]
    have hy : y ∈ x :: y :: rest :=
      List.mem_cons_of_mem _ (List.mem_cons_self _ _)
    have hx : x ∈ x :: y :: rest := List.mem_cons_self _ _
    have hsub : ∀ a ∈ (if k1 y < k1 x then y else x) :: rest,
        a ∈ x :: y :: rest := by
      intro a ha
      rcases List.mem_cons.mp ha with h | h
      · split_ifs at h
        · exact h ▸ hy
        · exact h ▸ hx
      · exact List.mem_cons_of_mem _ (List.mem_cons_of_mem _ h)
    by_cases h : k1 y < k1 x
    · have h2 : k2 y < k2 x := (hiff y hy x hx).mp h
      simp only [if_pos h, if_pos h2]
      apply ih
      intro a ha b hb
      have ha' := hsub a (by simpa [if_pos h] using ha)
      have hb' := hsub b (by simpa [if_pos h] using hb)
      exact hiff a ha' b hb'
    · have h2 : ¬k2 y < k2 x := fun hlt => h ((hiff y hy x hx).mpr hlt)
      simp only [if_neg h, if_neg h2]
      apply ih
      intro a ha b hb
      have ha' := hsub a (by simpa [if_neg h] using ha)
      have hb' := hsub b (by simpa [if_neg h] using hb)
      exact hiff a ha' b hb'

lemma order_index_eq_zero {order : List Label} {o w : Label}
    (h : order_index (o :: order) w = 0) : w = o := by
  by_contra hne
  simp [order_index, hne] at h

lemma tie_eq : ∀ (order cands : List Label),
    (∀ c ∈ cands, c ∈ order) → cands ≠ [] →
    first_min_by (order_index order) cands =
      (order.find? (fun o => decide (o ∈ cands))).getD Label.OTHER := by
  intro order
  induction order with
  | nil =>
    intro cands hsub hne
    cases cands with
    | nil => exact absurd rfl hne
    | cons c cs => exact absurd (hsub c (List.mem_cons_self _ _)) (by simp)
  | cons o rest ih =>
    intro cands hsub hne
    by_cases hm : o ∈ cands
    · rw [List.find?_cons_of_pos _ (by simpa using hm)]
      have hw_mem := first_min_by_mem (order_index (o :: rest)) cands hne
      have hzero : order_index (o :: rest)
          (first_min_by (order_index (o :: rest)) cands) = 0 := by
        have hle : order_index (o :: rest)
            (first_min_by (order_index (o :: rest)) cands) ≤
            order_index (o :: rest) o := by
          cases cands with
          | nil => exact absurd rfl hne
          | cons x cs =>
            exact fold_min_le (order_index (o :: rest)) cs x o hm
        have : order_index (o :: rest) o = 0 := by simp [order_index]
        omega
      rw [order_index_eq_zero hzero]
      rfl
    · rw [List.find?_cons_of_neg _ (by simpa using hm)]
      have hsub' : ∀ c ∈ cands, c ∈ rest := by
        intro c hc
        rcases List.mem_cons.mp (hsub c hc) with h | h
        · exact absurd (h ▸ hc) hm
        · exact h
      have hkey : ∀ c ∈ cands,
          order_index (o :: rest) c = 1 + order_index rest c := by
        intro c hc
        have hne' : c ≠ o := fun he => hm (he ▸ hc)
        simp [order_index, hne']
      rw [← ih cands hsub' hne]
      cases cands with
      | nil => exact absurd rfl hne
      | cons x cs =>
        show (cs.foldl (fun best y =>
            if order_index (o :: rest) y < order_index (o :: rest) best
            then y else best) x) = _
        apply fold_min_congr
        intro a ha b hb
        rw [hkey a ha, hkey b hb]
        omega

/-- Claim C3: in the resolver, ties among the maximum-score labels are
broken by the per-section preferred order (falling back to the universal
order when the section has none), the first candidate in that order
winning, and then the first label preceding the chosen one in that order
whose score is within 1 point of the maximum is promoted over the
tie-break winner.  Stated as equality between the code's fold/loop and the
spec's first-in-order formulation, under the (always true for the six
listed sections) proviso that every candidate occurs in the order list. -/
theorem claim_C3 (s : Scores) (sec : String)
    (h : ∀ c ∈ candidates s, c ∈ tie_order_for sec) :
    resolve_choice s sec =
      near_tie_spec (tie_order_for sec) s (max_score s)
        (tie_winner_spec (tie_order_for sec) (candidates s)) := by
  unfold resolve_choice tie_winner_spec
  rw [← tie_eq (tie_order_for sec) (candidates s) h (candidates_ne_nil s)]
  exact near_tie_eq _ _ _ _

/-- Witness for C3 at the all-zero score vector (an eight-way tie) in
section METHODS. -/
theorem claim_C3_witness :
    resolve_choice zeroScores "METHODS" =
      near_tie_spec (tie_order_for "METHODS") zeroScores
        (max_score zeroScores)
        (tie_winner_spec (tie_order_for "METHODS")
          (candidates zeroScores)) :=
  claim_C3 zeroScores "METHODS" (by decide)
